import Mathlib

set_option maxRecDepth 100000

/-!
Shallow embedding of the `llms-full-html` generator
(`src/generate_llms_html.py`, `src/utils.py`) and proofs about it.

Strings are modelled by Lean `String` (a wrapper around `List Char`), with
helper functions over `List Char` that model the Python string methods used
by the source.  Network calls and the file system are modelled by explicit
outcome values / oracle functions supplied as parameters.
-/

namespace Llms

/-- The single-quote character (written via its code point to keep the source
free of quote characters). -/
def sq : Char := Char.ofNat 39

/-- The characters of Python `\s` / `str.strip()` for the ASCII range
(space, tab, newline, carriage return, vertical tab, form feed).  The
source only ever meets ASCII whitespace in the inputs relevant here. -/
def isPySpace (c : Char) : Bool :=
  c = ' ' || c = '\t' || c = '\n' || c = '\r' || c = '\x0b' || c = '\x0c'

/-- Boolean list-prefix test. -/
def isPrefixL : List Char → List Char → Bool
  | [], _ => true
  | _ :: _, [] => false
  | p :: ps, c :: cs => p = c && isPrefixL ps cs

/-- Boolean substring occurrence test on char lists (`pat` occurs in `l`). -/
def occursInL (pat : List Char) : List Char → Bool
  | [] => isPrefixL pat []
  | c :: cs => isPrefixL pat (c :: cs) || occursInL pat cs

/-- Substring occurrence on strings (Python `pat in s`). -/
def occursIn (s pat : String) : Bool := occursInL pat.data s.data

/-- Python `str.strip()` on char lists (both ends, Python whitespace). -/
def pyStripL (l : List Char) : List Char :=
  ((l.dropWhile isPySpace).reverse.dropWhile isPySpace).reverse

/-- Python `str.strip()`. -/
def pyStrip (s : String) : String := ⟨pyStripL s.data⟩

/-- Python `str.lower()` (ASCII letters; the source only lowercases titles). -/
def pyLower (s : String) : String := ⟨s.data.map Char.toLower⟩

/-- Python `"".join(texts)`: concatenation of a list of strings. -/
def strConcat (l : List String) : String := ⟨(l.map String.data).flatten⟩

/-- Worker for `replaceAllL`, structurally recursive on a fuel argument so
that the kernel can evaluate it. -/
def replaceAllAux (pat repl : List Char) : Nat → List Char → List Char
  | _, [] => []
  | 0, l => l
  | fuel + 1, c :: cs =>
    if pat ≠ [] ∧ isPrefixL pat (c :: cs) then
      repl ++ replaceAllAux pat repl fuel ((c :: cs).drop pat.length)
    else
      c :: replaceAllAux pat repl fuel cs

/-- Python `s.replace(pat, repl)` (all occurrences, left to right,
non-overlapping).  The source only calls this with non-empty `pat`;
for `pat = []` this model is the identity. -/
def replaceAllL (pat repl l : List Char) : List Char :=
  replaceAllAux pat repl l.length l

/-- Python `s.replace(pat, repl)` on strings. -/
def pyReplaceAll (s pat repl : String) : String :=
  ⟨replaceAllL pat.data repl.data s.data⟩

/-- Split `l` at the first occurrence of `pat`, returning the part before
and the part after the occurrence (`none` when `pat` does not occur). -/
def splitAtFirst (pat : List Char) : List Char → Option (List Char × List Char)
  | [] => if pat = [] then some ([], []) else none
  | c :: cs =>
    if isPrefixL pat (c :: cs) then some ([], (c :: cs).drop pat.length)
    else
      match splitAtFirst pat cs with
      | some (b, a) => some (c :: b, a)
      | none => none

/-- Python `s.replace(pat, repl, 1)` on char lists. -/
def replaceFirstL (pat repl l : List Char) : List Char :=
  match splitAtFirst pat l with
  | some (b, a) => b ++ repl ++ a
  | none => l

/-- Python `s.replace(pat, repl, 1)` on strings. -/
def pyReplaceFirst (s pat repl : String) : String :=
  ⟨replaceFirstL pat.data repl.data s.data⟩

/-- Python `str.endswith` on strings. -/
def pyEndsWith (s suffix : String) : Bool :=
  isPrefixL suffix.data.reverse s.data.reverse

/-- Python `str.title()` for ASCII text: uppercase a letter not preceded by
a letter, lowercase a letter preceded by one. -/
def pyTitleAux : Bool → List Char → List Char
  | _, [] => []
  | prevAlpha, c :: cs =>
    (if c.isAlpha then (if prevAlpha then c.toLower else c.toUpper) else c)
      :: pyTitleAux c.isAlpha cs

/-- Python `str.title()`. -/
def pyTitle (s : String) : String := ⟨pyTitleAux false s.data⟩

/-- `os.path.basename`: the component after the last `/`. -/
def basename (p : String) : String :=
  ⟨((p.data.reverse.takeWhile (fun c => c ≠ '/')).reverse)⟩

/-! ## Summary provider pipeline (`generate_llms_html.py`, lines 109-192)

The network is abstracted by outcome values: a `GenaiOutcome` describes what
the Gemini `generate_content` call does (a response object with an optional
`text` field and a `candidates` list, or one of the exception classes the
source catches); an `HttpOutcome` describes the OpenRouter POST (an HTTP
response with a status code and a `choices` list, a `requests.Timeout`, or
any other exception).  API keys are `Option String` (`none` models a missing
key; the code treats the empty string as missing too, via Python truthiness).
-/

/-- Fixed message of `summarize_with_gemini` when no API key is available. -/
def geminiNoKeyMsg : String := "Summary not available: Gemini API key not found."

/-- Fixed message when the Gemini response carries no usable text. -/
def geminiEmptyMsg : String := "Summary generation failed: Empty Gemini response."

/-- Fixed message on `httpx` timeout / HTTP errors. -/
def geminiTimeoutMsg : String := "Summary skipped due to Gemini network timeout."

/-- Fixed message on `KeyboardInterrupt`. -/
def geminiInterruptMsg : String := "Summary skipped due to interruption."

/-- Fixed message on any other exception during the Gemini call. -/
def geminiErrorMsg : String := "Summary skipped due to Gemini API error."

/-- The five fixed non-text strings `summarize_with_gemini` can return. -/
def geminiPlaceholders : List String :=
  [geminiNoKeyMsg, geminiEmptyMsg, geminiTimeoutMsg, geminiInterruptMsg, geminiErrorMsg]

/-- Python truthiness of an optional API-key string (`if not api_key`). -/
def keyTruthy : Option String → Bool
  | none => false
  | some k => if k = "" then false else true

/-- Outcome of the Gemini `client.models.generate_content` call: a response
(optional `text` attribute, `candidates` where each candidate optionally has
`content.parts`, each part an optional `text`), or one of the caught
exception classes. -/
inductive GenaiOutcome where
  | ok (text : Option String) (candidates : List (Option (List (Option String))))
  | netErr
  | interrupt
  | exc

/-- Outcome of the OpenRouter POST: an HTTP response carrying a status code
and the `choices` list (each choice's `message.content`, optional), a
`requests.Timeout`, or any other exception. -/
inductive HttpOutcome where
  | resp (status : Nat) (choices : List (Option String))
  | timeout
  | exc

/-- `_build_summary_prompt` (lines 109-115). -/
def buildSummaryPrompt (content : String) : String :=
  "Provide a concise, factual summary of the following content.\n"
    ++ "Focus on purpose, key features, and important details.\n"
    ++ "Limit to 3-6 bullet points.\n\n"
    ++ content

/-- The list comprehension of line 130: texts of the parts that have a
truthy `text` attribute. -/
def partTexts (parts : List (Option String)) : List String :=
  parts.filterMap fun pt =>
    match pt with
    | some t => if t = "" then none else some t
    | none => none

/-- The candidate loop of lines 126-132: first candidate with truthy
`content.parts` whose parts yield a non-empty text list gives the joined
texts. -/
def scanCandidates : List (Option (List (Option String))) → Option String
  | [] => none
  | cand :: rest =>
    match cand with
    | some parts =>
      if parts.isEmpty then scanCandidates rest
      else if (partTexts parts).isEmpty then scanCandidates rest
      else some (strConcat (partTexts parts))
    | none => scanCandidates rest

/-- `summarize_with_gemini` (lines 117-141). -/
def summarize_with_gemini (content : String) (apiKey : Option String)
    (net : GenaiOutcome) : String :=
  if !(keyTruthy apiKey) then geminiNoKeyMsg
  else
    let _prompt := buildSummaryPrompt content
    match net with
    | .ok text cands =>
      match text with
      | some t =>
        if t = "" then
          match scanCandidates cands with
          | some s => s
          | none => geminiEmptyMsg
        else t
      | none =>
        match scanCandidates cands with
        | some s => s
        | none => geminiEmptyMsg
    | .netErr => geminiTimeoutMsg
    | .interrupt => geminiInterruptMsg
    | .exc => geminiErrorMsg

/-- `summarize_with_openrouter` (lines 143-173).  `apiKey` is the already
resolved `_resolve_openrouter_api_key()` result. -/
def summarize_with_openrouter (content : String) (apiKey : Option String)
    (net : HttpOutcome) : Option String :=
  if !(keyTruthy apiKey) then none
  else
    let _payload := buildSummaryPrompt content
    match net with
    | .resp status choices =>
      if status ≠ 200 then none
      else
        match choices with
        | [] => none
        | c :: _ =>
          let contentText := pyStrip (c.getD "")
          if contentText = "" then none else some contentText
    | .timeout => none
    | .exc => none

/-- Which backend functions were invoked and which network calls attempted
during one `summarize_content` call. -/
structure CallLog where
  orInvoked : Bool
  orNet : Bool
  gemInvoked : Bool
  gemNet : Bool
deriving DecidableEq

/-- `summarize_content` (lines 175-192), additionally returning the call
log.  `provider` models the module-level `DEFAULT_PROVIDER`. -/
def summarize_content (provider content : String) (orKey : Option String)
    (orNet : HttpOutcome) (gemKey : Option String) (gemNet : GenaiOutcome) :
    String × CallLog :=
  if provider = "openrouter" then
    match summarize_with_openrouter content orKey orNet with
    | some summary => (summary, ⟨true, keyTruthy orKey, false, false⟩)
    | none =>
      (summarize_with_gemini content gemKey gemNet,
        ⟨true, keyTruthy orKey, true, keyTruthy gemKey⟩)
  else if provider = "gemini" then
    (summarize_with_gemini content gemKey gemNet, ⟨false, false, true, keyTruthy gemKey⟩)
  else
    match summarize_with_openrouter content orKey orNet with
    | some summary => (summary, ⟨true, keyTruthy orKey, false, false⟩)
    | none =>
      (summarize_with_gemini content gemKey gemNet,
        ⟨true, keyTruthy orKey, true, keyTruthy gemKey⟩)

/-- `DEFAULT_PROVIDER` (line 38) as a function of the `GEN_PROVIDER`
environment variable. -/
def DEFAULT_PROVIDER (env : Option String) : String :=
  let v := pyLower (pyStrip (env.getD "openrouter"))
  if v = "" then "openrouter" else v

/-- The non-empty generated text backend B (Gemini) yields, if any: `some t`
when the call succeeds and carries usable text, `none` otherwise. -/
def geminiText (apiKey : Option String) (net : GenaiOutcome) : Option String :=
  if !(keyTruthy apiKey) then none
  else
    match net with
    | .ok text cands =>
      match text with
      | some t => if t = "" then scanCandidates cands else some t
      | none => scanCandidates cands
    | _ => none

/-! ## File reader (`utils.py`, `safe_read`, lines 32-52) -/

/-- Outcome of one `open(filepath, encoding=enc).read()` attempt. -/
inductive ReadOutcome where
  | ok (s : String)
  | decodeErr
  | otherErr (msg : String)

/-- The `for encoding in (...)` loop of `safe_read`.  Returns the result,
the encodings attempted, and the diagnostic lines printed. -/
def safeReadLoop (filepath : String) (att : String → ReadOutcome) :
    List String → Option String × List String × List String
  | [] => (none, [], ["Skipping file due to encoding issues: " ++ filepath])
  | enc :: rest =>
    match att enc with
    | .ok s => (some s, [enc], [])
    | .decodeErr =>
      let r := safeReadLoop filepath att rest
      (r.1, enc :: r.2.1, r.2.2)
    | .otherErr msg => (none, [enc], ["Error reading file " ++ filepath ++ ": " ++ msg])

/-- `safe_read` (`utils.py`, lines 32-52), with the per-encoding attempt
outcomes supplied by `att`. -/
def safe_read (filepath : String) (att : String → ReadOutcome) :
    Option String × List String × List String :=
  safeReadLoop filepath att ["utf-8", "latin-1"]

/-! ## Regex model

The only regexes in the source are `^#\s+(.+)` and `^>\s+(.+)` with
`re.MULTILINE`, used via `re.search`.  Both have the shape
`^X\s+(.+)` for a marker character `X`; the functions below implement
exactly that pattern's leftmost-match semantics: scan line starts left to
right; at a line start expect `X`, then a greedy run of whitespace that
backtracks until `.+` (one or more non-newline characters) can match. -/

/-- Longest prefix without a newline (what `.+` consumes greedily). -/
def takeNonNl : List Char → List Char
  | [] => []
  | c :: cs => if c = '\n' then [] else c :: takeNonNl cs

/-- Greedy backtracking for `\s+`: the largest `m` at most the given bound,
with `m ≥ 1`, such that the character of `rest` at index `m` exists and is
not a newline (that character is the first one `.+` consumes). -/
def wsBacktrack (rest : List Char) : Nat → Option Nat
  | 0 => none
  | m + 1 =>
    match rest.get? (m + 1) with
    | some ch => if ch = '\n' then wsBacktrack rest m else some (m + 1)
    | none => wsBacktrack rest m

/-- Match `X\s+(.+)` at the current position (a line start).  Returns
`(group 0, group 1)` on success. -/
def matchAt (marker : Char) : List Char → Option (List Char × List Char)
  | [] => none
  | c :: rest =>
    if c = marker then
      match wsBacktrack rest (rest.takeWhile isPySpace).length with
      | some m =>
        let g1 := takeNonNl (rest.drop m)
        some (c :: (rest.take m ++ g1), g1)
      | none => none
    else none

/-- The positions after the first newline, if any. -/
def nextLineStart : List Char → Option (List Char)
  | [] => none
  | c :: cs => if c = '\n' then some cs else nextLineStart cs

/-- Scan line starts left to right, as `re.search` does for a `^`-anchored
pattern under `re.MULTILINE`.  Structural on fuel so the kernel can
evaluate it; `reSearch` supplies enough fuel for the whole string. -/
def searchAux (marker : Char) : Nat → List Char → Option (List Char × List Char)
  | 0, _ => none
  | fuel + 1, l =>
    match matchAt marker l with
    | some r => some r
    | none =>
      match nextLineStart l with
      | none => none
      | some rest => searchAux marker fuel rest

/-- `re.search(r"^X\s+(.+)", content, re.MULTILINE)`, giving
`(match.group(0), match.group(1))`. -/
def reSearch (marker : Char) (content : String) : Option (String × String) :=
  match searchAux marker (content.data.length + 1) content.data with
  | some (g0, g1) => some (⟨g0⟩, ⟨g1⟩)
  | none => none

/-! ## Document assembler (`generate_llms_html.py`, lines 194-328) -/

/-- `html.escape` on one character.  The five sequential replacements of
`html.escape` (with the default `quote=True`) act independently per input
character, so the whole escape is a per-character map. -/
def escapeChar (c : Char) : List Char :=
  if c = '&' then "&amp;".data
  else if c = '<' then "&lt;".data
  else if c = '>' then "&gt;".data
  else if c = '"' then "&quot;".data
  else if c = sq then "&#x27;".data
  else [c]

/-- `html.escape(s)` with the default `quote=True`. -/
def escapeHtml (s : String) : String := ⟨(s.data.map escapeChar).flatten⟩

/-- One `(root, filename)` pair produced by the `os.walk` loop. -/
structure WalkEntry where
  root : String
  filename : String
deriving DecidableEq

/-- `os.path.join(root, filename)` (POSIX semantics). -/
def filepathOf (e : WalkEntry) : String :=
  if isPrefixL ['/'] e.filename.data then e.filename
  else if e.root = "" then e.filename
  else if pyEndsWith e.root "/" then e.root ++ e.filename
  else e.root ++ "/" ++ e.filename

/-- The non-Markdown extension allowlist of line 212. -/
def otherExtensions : List String := [".txt", ".py", ".js", ".html", ".sh", ".rs", ".toml"]

/-- `list.sort()` on path strings: sorting by the lexicographic
(code-point) order, as Python compares strings. -/
def sortPaths (l : List String) : List String := l.insertionSort (fun a b => a ≤ b)

/-- The classification loop (lines 207-216), Markdown branch, sorted. -/
def markdownFiles (entries : List WalkEntry) : List String :=
  sortPaths ((entries.filter (fun e => pyEndsWith e.filename ".md")).map filepathOf)

/-- The classification loop (lines 207-217), other-text branch, sorted. -/
def otherTextFiles (entries : List WalkEntry) : List String :=
  sortPaths ((entries.filter (fun e =>
    !(pyEndsWith e.filename ".md")
      && otherExtensions.any (fun ext => pyEndsWith e.filename ext))).map filepathOf)

/-- The `<p><a href='#top'>...</a></p>` back link (lines 253, 266, 293, 304). -/
def backToTop : String :=
  "<p><a href=" ++ sq.toString ++ "#top" ++ sq.toString
    ++ ">Back to Table of Contents</a></p>"

/-- The anchor-id computation `title.lower().replace(" ", "-")`
(lines 263 and 301). -/
def sectionIdOf (title : String) : String := pyReplaceAll (pyLower title) " " "-"

/-- A table-of-contents entry `<li><a href='#anchor'>title</a></li>`. -/
def tocEntryOf (anchor title : String) : String :=
  "<li><a href=" ++ sq.toString ++ "#" ++ anchor ++ sq.toString
    ++ ">" ++ title ++ "</a></li>"

/-- A section heading `<h2 id='anchor'>title</h2>`. -/
def headingOf (anchor title : String) : String :=
  "<h2 id=" ++ sq.toString ++ anchor ++ sq.toString ++ ">" ++ title ++ "</h2>"

/-- Title derivation when no `#`-heading matches (line 262):
`os.path.basename(filepath).replace(".md", "").replace("_", " ").title()`. -/
def mdFallbackTitle (filepath : String) : String :=
  pyTitle (pyReplaceAll (pyReplaceAll (basename filepath) ".md" "") "_" " ")

/-- The title of a Markdown file (lines 261-262). -/
def mdTitleOf (content : String) (filepath : String) : String :=
  match reSearch '#' content with
  | some (_, g1) => pyStrip g1
  | none => mdFallbackTitle filepath

/-- The text written into the `<pre><code>` block of a Markdown section
(lines 280-286): the first occurrence of the matched title line and the
first occurrence of the matched summary line are removed (`str.replace`
with count 1), then the result is stripped. -/
def mdBodyText (content : String) : String :=
  let body0 :=
    match reSearch '#' content with
    | some (g0, _) => pyReplaceFirst content g0 ""
    | none => content
  let body1 :=
    match reSearch '>' content with
    | some (g0, _) => pyReplaceFirst body0 g0 ""
    | none => body0
  pyStrip body1

/-- The summary paragraph of a Markdown section (lines 269-277). -/
def mdSummaryPara (summ : String → String) (content : String) : String :=
  match reSearch '>' content with
  | some (_, g1) => "<p>Summary: " ++ pyStrip g1 ++ "</p>"
  | none => "<p>Generated Summary: " ++ summ content ++ "</p>"

/-- One Markdown file's contribution (lines 255-286): `none` when
`safe_read` returned `None` (the loop `continue`s), otherwise the
table-of-contents entry and the four content-section strings. -/
def mdSectionParts (summ : String → String) (fs : String → Option String)
    (filepath : String) : Option (String × List String) :=
  match fs filepath with
  | none => none
  | some content =>
    let title := mdTitleOf content filepath
    let anchor := sectionIdOf title
    some (tocEntryOf anchor title,
      [headingOf anchor title, backToTop, mdSummaryPara summ content,
       "<pre><code>" ++ escapeHtml (mdBodyText content) ++ "</code></pre>"])

/-- One other-text file's contribution (lines 295-310). -/
def otherSectionParts (summ : String → String) (fs : String → Option String)
    (filepath : String) : Option (String × List String) :=
  match fs filepath with
  | none => none
  | some content =>
    let title := basename filepath
    let anchor := sectionIdOf title
    some (tocEntryOf anchor title,
      [headingOf anchor title, backToTop,
       "<p>Generated Summary: " ++ summ content ++ "</p>",
       "<pre><code>" ++ escapeHtml (pyStrip content) ++ "</code></pre>"])

/-- The fixed document head (lines 219-241), up to and including the
indentation that precedes the first `<li>`. -/
def htmlShellHead : String :=
  "\n<!DOCTYPE html>\n"
  ++ "<html lang=\"en\">\n"
  ++ "<head>\n"
  ++ "    <meta charset=\"UTF-8\">\n"
  ++ "    <meta name=\"viewport\" content=\"width=device-width, initial-scale=1.0\">\n"
  ++ "    <title>Project Documentation</title>\n"
  ++ "    <style>\n"
  ++ "        body \x7b font-family: Arial, sans-serif; line-height: 1.6; margin: 20px; \x7d\n"
  ++ "        h1, h2 \x7b color: #333; \x7d\n"
  ++ "        h2 \x7b border-bottom: 1px solid #ccc; padding-bottom: 5px; margin-top: 30px; \x7d\n"
  ++ "        pre \x7b background-color: #f4f4f4; padding: 10px; border: 1px solid #ddd; overflow-x: auto; \x7d\n"
  ++ "        code \x7b font-family: monospace; \x7d\n"
  ++ "        a \x7b color: #007bff; text-decoration: none; \x7d\n"
  ++ "        a:hover \x7b text-decoration: underline; \x7d\n"
  ++ "    </style>\n"
  ++ "</head>\n"
  ++ "<body>\n"
  ++ "    <h1>Project Documentation</h1>\n"
  ++ "    <nav>\n"
  ++ "        <h2>Table of Contents</h2>\n"
  ++ "        <ol>\n"
  ++ "    "

/-- The fixed fragment of lines 313-317 (close the list, open `<main>`). -/
def navCloseMainOpen : String := "\n        </ol>\n    </nav>\n    <main>\n    "

/-- The fixed document tail (lines 319-323). -/
def htmlTail : String := "\n    </main>\n</body>\n</html>\n    "

/-- The Markdown group's table-of-contents entry (line 250). -/
def mdGroupToc : String := tocEntryOf "markdown-files" "Markdown Files"

/-- The Markdown group's fixed content sections (lines 251-253). -/
def mdGroupSections : List String :=
  [headingOf "markdown-files" "Markdown Files",
   "<p>Comprehensive documentation of the project in Markdown format.</p>",
   backToTop]

/-- The code group's table-of-contents entry (line 290). -/
def codeGroupToc : String := tocEntryOf "code-files" "Code and Other Files"

/-- The code group's fixed content sections (lines 291-293). -/
def codeGroupSections : List String :=
  [headingOf "code-files" "Code and Other Files",
   "<p>Code snippets, scripts, and other relevant text files.</p>",
   backToTop]

/-- The `(toc_entry, sections)` pairs contributed by the Markdown loop
(lines 255-286), in processing order. -/
def mdParts (summ : String → String) (fs : String → Option String)
    (entries : List WalkEntry) : List (String × List String) :=
  (markdownFiles entries).filterMap (mdSectionParts summ fs)

/-- The `(toc_entry, sections)` pairs contributed by the other-text loop
(lines 295-310), in processing order. -/
def otherParts (summ : String → String) (fs : String → Option String)
    (entries : List WalkEntry) : List (String × List String) :=
  (otherTextFiles entries).filterMap (otherSectionParts summ fs)

/-- `generate_llms_html` (lines 194-328): the complete output document,
with the directory walk, the file system and the summary pipeline supplied
as parameters (`summ content` models `summarize_content(content, api_key)`
for the run's fixed configuration). -/
def generate_llms_html (entries : List WalkEntry) (fs : String → Option String)
    (summ : String → String) : String :=
  let tocEntries :=
    (mdParts summ fs entries).map Prod.fst ++ (otherParts summ fs entries).map Prod.fst
  let contentSections :=
    mdGroupSections ++ ((mdParts summ fs entries).map Prod.snd).flatten
      ++ codeGroupSections ++ ((otherParts summ fs entries).map Prod.snd).flatten
  htmlShellHead ++ mdGroupToc ++ codeGroupToc ++ strConcat tocEntries
    ++ navCloseMainOpen ++ strConcat contentSections ++ htmlTail

/-! ## Claim-side helper notions -/

/-- Split a char list at newlines (the list of lines). -/
def splitLinesAux : List Char → List (List Char)
  | [] => [[]]
  | c :: cs =>
    if c = '\n' then [] :: splitLinesAux cs
    else
      match splitLinesAux cs with
      | l :: ls => (c :: l) :: ls
      | [] => [[c]]

/-- The lines of a string. -/
def splitLines (s : String) : List String := (splitLinesAux s.data).map (⟨·⟩)

/-- Claim-side: the first line of `content` matching the `#`-heading
pattern `^#\s+(.+)` as a standalone line. -/
def firstHashHeadingLine (content : String) : Option String :=
  (splitLines content).find? (fun l => (matchAt '#' l.data).isSome)

/-- Claim-side: the first line of `content` matching the quoted-summary
pattern `^>\s+(.+)` as a standalone line. -/
def firstQuoteLine (content : String) : Option String :=
  (splitLines content).find? (fun l => (matchAt '>' l.data).isSome)

/-- No line of `l` begins with `marker`; `atStart` says whether the head of
`l` is a line start. -/
def noMarkerAtLineStarts (marker : Char) : Bool → List Char → Bool
  | _, [] => true
  | atStart, c :: cs =>
    (if atStart then c != marker else true) && noMarkerAtLineStarts marker (c = '\n') cs

/-- The list ends with a newline. -/
def endsNl (l : List Char) : Bool := l.getLast? == some '\n'

/-- The line-start flag after scanning `l` starting from flag `b` (whether
the position right after `l` is a line start). -/
def flagAfter (b : Bool) : List Char → Bool
  | [] => b
  | c :: cs => flagAfter (c = '\n') cs

/-- Claim-side: the family of Markdown contents considered by the inline
title/summary extraction claim: first line exactly `# Test Document`, first
quoted line exactly `> This is a summary.` followed by a newline, with
arbitrary text `A` between them and `B` after. -/
def c3Content (A B : String) : String :=
  "# Test Document\n" ++ (A ++ ("> This is a summary.\n" ++ B))

/-- Claim-side: the titles of the readable Markdown files, in processing
order (used to relate table-of-contents entries and section headings). -/
def mdTitles (fs : String → Option String) (paths : List String) : List String :=
  paths.filterMap fun fp => (fs fp).map fun content => mdTitleOf content fp

/-- Claim-side: the titles of the readable other-text files, in processing
order. -/
def otherTitles (fs : String → Option String) (paths : List String) : List String :=
  paths.filterMap fun fp => (fs fp).map fun _ => basename fp

end Llms

namespace Llms

/-! ## Theorems -/

theorem summarize_with_gemini_eq (content : String) (k : Option String)
    (net : GenaiOutcome) :
    (∃ t, geminiText k net = some t ∧ summarize_with_gemini content k net = t) ∨
    (geminiText k net = none ∧ summarize_with_gemini content k net ∈ geminiPlaceholders) := by
  unfold summarize_with_gemini geminiText
  cases hk : keyTruthy k with
  | false => right; simp [geminiPlaceholders]
  | true =>
    cases net with
    | ok text cands =>
      cases text with
      | none =>
        cases h : scanCandidates cands with
        | none => right; simp [h, geminiPlaceholders]
        | some s => left; exact ⟨s, by simp [h], by simp [h]⟩
      | some t =>
        by_cases ht : t = ""
        · cases h : scanCandidates cands with
          | none => right; simp [ht, h, geminiPlaceholders]
          | some s => left; exact ⟨s, by simp [ht, h], by simp [ht, h]⟩
        · left; exact ⟨t, by simp [ht], by simp [ht]⟩
    | netErr => right; simp [geminiPlaceholders]
    | interrupt => right; simp [geminiPlaceholders]
    | exc => right; simp [geminiPlaceholders]

theorem string_ne_empty_of_data {s : String} (h : s.data ≠ []) : s ≠ "" := by
  intro he
  apply h
  rw [he]

theorem strConcat_ne_empty {l : List String} (hne : l ≠ [])
    (hall : ∀ t ∈ l, t ≠ "") : strConcat l ≠ "" := by
  cases l with
  | nil => exact absurd rfl hne
  | cons t ts =>
    apply string_ne_empty_of_data
    show (t.data ++ (ts.map String.data).flatten) ≠ []
    have ht : t ≠ "" := hall t (List.mem_cons_self t ts)
    intro h
    rcases List.append_eq_nil.mp h with ⟨h1, _⟩
    exact ht (by cases t; simp_all)

theorem partTexts_mem {parts : List (Option String)} {t : String}
    (h : t ∈ partTexts parts) : t ≠ "" := by
  rcases List.mem_filterMap.mp h with ⟨a, _, ha⟩
  cases a with
  | none => simp at ha
  | some u =>
    by_cases hu : u = "" <;> simp [hu] at ha
    exact ha ▸ hu

theorem scanCandidates_ne_empty {cands : List (Option (List (Option String)))}
    {s : String} (h : scanCandidates cands = some s) : s ≠ "" := by
  induction cands with
  | nil => simp [scanCandidates] at h
  | cons cand rest ih =>
    cases cand with
    | none => exact ih (by simpa [scanCandidates] using h)
    | some parts =>
      by_cases hp : parts.isEmpty
      · exact ih (by simpa [scanCandidates, hp] using h)
      · by_cases hpt : (partTexts parts).isEmpty
        · exact ih (by simpa [scanCandidates, hp, hpt] using h)
        · have hs : s = strConcat (partTexts parts) := by
            simp [scanCandidates, hp, hpt] at h
            exact h.symm
          rw [hs]
          exact strConcat_ne_empty (by simpa [List.isEmpty_iff] using hpt)
            (fun t ht => partTexts_mem ht)

theorem summarize_with_gemini_ne_empty (content : String) (k : Option String)
    (net : GenaiOutcome) : summarize_with_gemini content k net ≠ "" := by
  unfold summarize_with_gemini
  cases hk : keyTruthy k with
  | false => simp [geminiNoKeyMsg]
  | true =>
    cases net with
    | ok text cands =>
      cases text with
      | none =>
        cases h : scanCandidates cands with
        | none => simp [h, geminiEmptyMsg]
        | some s => simpa [h] using scanCandidates_ne_empty h
      | some t =>
        by_cases ht : t = ""
        · cases h : scanCandidates cands with
          | none => simp [ht, h, geminiEmptyMsg]
          | some s => simpa [ht, h] using scanCandidates_ne_empty h
        · simp [ht]
    | netErr => simp [geminiTimeoutMsg]
    | interrupt => simp [geminiInterruptMsg]
    | exc => simp [geminiErrorMsg]

theorem summarize_with_openrouter_ne_empty (content : String) (k : Option String)
    (net : HttpOutcome) {t : String}
    (h : summarize_with_openrouter content k net = some t) : t ≠ "" := by
  unfold summarize_with_openrouter at h
  cases hk : keyTruthy k <;> simp [hk] at h
  cases net with
  | resp status choices =>
    by_cases hst : status = 200
    · simp [hst] at h
      cases choices with
      | nil => simp at h
      | cons c _ =>
        by_cases hc : pyStrip (c.getD "") = "" <;> simp [hc] at h
        exact h ▸ hc
    · simp [hst] at h
  | timeout => simp at h
  | exc => simp at h

theorem summarize_with_openrouter_noKey (content : String) {k : Option String}
    (net : HttpOutcome) (hk : keyTruthy k = false) :
    summarize_with_openrouter content k net = none := by
  unfold summarize_with_openrouter
  simp [hk]

/-- C1: with provider A ("openrouter", the default), when backend A's call
fails or returns an empty result (`summarize_with_openrouter` yields
`None`), `summarize_content` invokes backend B (Gemini) before returning;
it returns B's text when B yields non-empty text, and only when B yields
nothing does it return one of the fixed placeholder strings. -/
theorem C1_openrouter_falls_back_to_gemini (content : String)
    (orKey : Option String) (orNet : HttpOutcome) (gemKey : Option String)
    (gemNet : GenaiOutcome) :
    DEFAULT_PROVIDER none = "openrouter" ∧
    (summarize_with_openrouter content orKey orNet = none →
      (summarize_content "openrouter" content orKey orNet gemKey gemNet).2.gemInvoked = true ∧
      (summarize_content "openrouter" content orKey orNet gemKey gemNet).1
        = summarize_with_gemini content gemKey gemNet ∧
      (∀ t, geminiText gemKey gemNet = some t →
        (summarize_content "openrouter" content orKey orNet gemKey gemNet).1 = t) ∧
      (geminiText gemKey gemNet = none →
        (summarize_content "openrouter" content orKey orNet gemKey gemNet).1
          ∈ geminiPlaceholders)) := by
  refine ⟨rfl, fun hor => ?_⟩
  have hr : summarize_content "openrouter" content orKey orNet gemKey gemNet
      = (summarize_with_gemini content gemKey gemNet,
          ⟨true, keyTruthy orKey, true, keyTruthy gemKey⟩) := by
    unfold summarize_content
    simp [hor]
  refine ⟨by rw [hr], by rw [hr], fun t ht => ?_, fun hn => ?_⟩
  · rw [hr]
    rcases summarize_with_gemini_eq content gemKey gemNet with ⟨u, hu, he⟩ | ⟨hn, _⟩
    · rw [hu] at ht; exact he.trans (Option.some.inj ht)
    · rw [hn] at ht; exact absurd ht (by simp)
  · rw [hr]
    rcases summarize_with_gemini_eq content gemKey gemNet with ⟨u, hu, _⟩ | ⟨_, hm⟩
    · rw [hn] at hu; exact absurd hu (by simp)
    · exact hm

theorem C1_witness :
    summarize_with_openrouter "c" none HttpOutcome.exc = none ∧
    geminiText (some "k") (GenaiOutcome.ok (some "B text") []) = some "B text" ∧
    (summarize_content "openrouter" "c" none HttpOutcome.exc (some "k")
      (GenaiOutcome.ok (some "B text") [])).1 = "B text" ∧
    (summarize_content "openrouter" "c" none HttpOutcome.exc (some "k")
      (GenaiOutcome.ok (some "B text") [])).2.gemInvoked = true := by
  refine ⟨rfl, rfl, ?_, ?_⟩
  · exact ((C1_openrouter_falls_back_to_gemini "c" none HttpOutcome.exc (some "k")
      (GenaiOutcome.ok (some "B text") [])).2 rfl).2.2.1 "B text" rfl
  · exact ((C1_openrouter_falls_back_to_gemini "c" none HttpOutcome.exc (some "k")
      (GenaiOutcome.ok (some "B text") [])).2 rfl).1

/-- C4: `safe_read` either returns the file text or `None` and never
raises: it attempts UTF-8 first; on a decode failure it retries Latin-1;
any other I/O error yields `None` with a diagnostic and no further
attempt; exhausting both encodings yields `None` with a diagnostic; every
`None` outcome carries a diagnostic line. -/
theorem C4_safe_read_behaviour (filepath : String) (att : String → ReadOutcome) :
    ((safe_read filepath att).1 = none → (safe_read filepath att).2.2 ≠ []) ∧
    (∀ s, att "utf-8" = .ok s →
      safe_read filepath att = (some s, ["utf-8"], [])) ∧
    (∀ s, att "utf-8" = .decodeErr → att "latin-1" = .ok s →
      safe_read filepath att = (some s, ["utf-8", "latin-1"], [])) ∧
    (∀ m, att "utf-8" = .otherErr m →
      safe_read filepath att
        = (none, ["utf-8"], ["Error reading file " ++ filepath ++ ": " ++ m])) ∧
    (att "utf-8" = .decodeErr → att "latin-1" = .decodeErr →
      safe_read filepath att
        = (none, ["utf-8", "latin-1"],
            ["Skipping file due to encoding issues: " ++ filepath])) ∧
    (∀ m, att "utf-8" = .decodeErr → att "latin-1" = .otherErr m →
      safe_read filepath att
        = (none, ["utf-8", "latin-1"],
            ["Error reading file " ++ filepath ++ ": " ++ m])) := by
  unfold safe_read safeReadLoop
  cases h1 : att "utf-8" <;> cases h2 : att "latin-1" <;>
    simp [safeReadLoop, h1, h2]

theorem C4_witness :
    (fun enc => if enc = "utf-8" then ReadOutcome.decodeErr
      else ReadOutcome.ok "abc") "utf-8" = ReadOutcome.decodeErr ∧
    (fun enc => if enc = "utf-8" then ReadOutcome.decodeErr
      else ReadOutcome.ok "abc") "latin-1" = ReadOutcome.ok "abc" ∧
    safe_read "f.txt" (fun enc => if enc = "utf-8" then ReadOutcome.decodeErr
      else ReadOutcome.ok "abc") = (some "abc", ["utf-8", "latin-1"], []) := by
  refine ⟨by simp, by simp, ?_⟩
  exact (C4_safe_read_behaviour "f.txt" _).2.2.1 "abc" (by simp) (by simp)

/-- C5: if no credential is available for a backend, that backend's network
call is not attempted; and when both backends' credentials are absent the
pipeline returns exactly "Summary not available: Gemini API key not
found." (for every provider value), with no exception (the model is a
total function). -/
theorem C5_no_credential_no_call (provider content : String)
    (orKey : Option String) (orNet : HttpOutcome) (gemKey : Option String)
    (gemNet : GenaiOutcome) :
    (keyTruthy orKey = false →
      (summarize_content provider content orKey orNet gemKey gemNet).2.orNet = false) ∧
    (keyTruthy gemKey = false →
      (summarize_content provider content orKey orNet gemKey gemNet).2.gemNet = false) ∧
    (keyTruthy orKey = false → keyTruthy gemKey = false →
      (summarize_content provider content orKey orNet gemKey gemNet).1
        = geminiNoKeyMsg) := by
  unfold summarize_content
  by_cases hp : provider = "openrouter"
  · simp only [hp, if_pos rfl]
    cases ho : summarize_with_openrouter content orKey orNet with
    | none =>
      refine ⟨fun h => by simp [h], fun h => by simp [h], fun h1 h2 => ?_⟩
      simp only []
      unfold summarize_with_gemini
      simp [h2]
    | some s =>
      refine ⟨fun h => by simp [h], fun _ => by simp, fun h1 h2 => ?_⟩
      rw [summarize_with_openrouter_noKey content orNet h1] at ho
      exact absurd ho (by simp)
  · by_cases hg : provider = "gemini"
    · simp only [hp, hg, if_neg, if_pos rfl, reduceIte]
      refine ⟨fun _ => rfl, fun h => by simp [h], fun _ h2 => ?_⟩
      unfold summarize_with_gemini
      simp [h2]
    · simp only [hp, hg, reduceIte]
      cases ho : summarize_with_openrouter content orKey orNet with
      | none =>
        refine ⟨fun h => by simp [h], fun h => by simp [h], fun h1 h2 => ?_⟩
        simp only []
        unfold summarize_with_gemini
        simp [h2]
      | some s =>
        refine ⟨fun h => by simp [h], fun _ => by simp, fun h1 h2 => ?_⟩
        rw [summarize_with_openrouter_noKey content orNet h1] at ho
        exact absurd ho (by simp)

theorem C5_witness :
    keyTruthy (none : Option String) = false ∧
    (summarize_content "openrouter" "c" none HttpOutcome.exc none
      GenaiOutcome.exc).2.orNet = false ∧
    (summarize_content "openrouter" "c" none HttpOutcome.exc none
      GenaiOutcome.exc).2.gemNet = false ∧
    (summarize_content "openrouter" "c" none HttpOutcome.exc none
      GenaiOutcome.exc).1 = geminiNoKeyMsg := by
  have h := C5_no_credential_no_call "openrouter" "c" none HttpOutcome.exc none
    GenaiOutcome.exc
  exact ⟨rfl, h.1 rfl, h.2.1 rfl, h.2.2 rfl rfl⟩

/-- C6: with provider B ("gemini") configured, `summarize_content` calls
backend B directly and never invokes backend A (no OpenRouter call on this
branch); on B's failure it returns one of the fixed placeholder strings. -/
theorem C6_gemini_branch_never_calls_openrouter (content : String)
    (orKey : Option String) (orNet : HttpOutcome) (gemKey : Option String)
    (gemNet : GenaiOutcome) :
    (summarize_content "gemini" content orKey orNet gemKey gemNet).2.orInvoked = false ∧
    (summarize_content "gemini" content orKey orNet gemKey gemNet).2.orNet = false ∧
    (summarize_content "gemini" content orKey orNet gemKey gemNet).1
      = summarize_with_gemini content gemKey gemNet ∧
    (geminiText gemKey gemNet = none →
      (summarize_content "gemini" content orKey orNet gemKey gemNet).1
        ∈ geminiPlaceholders) := by
  have hr : summarize_content "gemini" content orKey orNet gemKey gemNet
      = (summarize_with_gemini content gemKey gemNet,
          ⟨false, false, true, keyTruthy gemKey⟩) := by
    unfold summarize_content
    simp
  refine ⟨by rw [hr], by rw [hr], by rw [hr], fun hn => ?_⟩
  rw [hr]
  rcases summarize_with_gemini_eq content gemKey gemNet with ⟨u, hu, _⟩ | ⟨_, hm⟩
  · rw [hn] at hu; exact absurd hu (by simp)
  · exact hm

theorem C6_witness :
    geminiText (some "k") GenaiOutcome.exc = none ∧
    (summarize_content "gemini" "c" (some "ork") (HttpOutcome.resp 200 [some "A text"])
      (some "k") GenaiOutcome.exc).2.orInvoked = false ∧
    (summarize_content "gemini" "c" (some "ork") (HttpOutcome.resp 200 [some "A text"])
      (some "k") GenaiOutcome.exc).1 ∈ geminiPlaceholders := by
  refine ⟨rfl, ?_, ?_⟩
  · exact (C6_gemini_branch_never_calls_openrouter "c" (some "ork")
      (HttpOutcome.resp 200 [some "A text"]) (some "k") GenaiOutcome.exc).1
  · exact (C6_gemini_branch_never_calls_openrouter "c" (some "ork")
      (HttpOutcome.resp 200 [some "A text"]) (some "k") GenaiOutcome.exc).2.2.2 rfl

/-- C10: for every provider, content and key values (including absent
keys), `summarize_content` returns a non-empty string; all backend
failure modes (timeouts, transport errors, non-200 statuses, malformed or
empty payloads, an interruption during the Gemini call) are converted to
message strings, never propagated (the model is a total function into
`String`). -/
theorem C10_summarize_content_ne_empty (provider content : String)
    (orKey : Option String) (orNet : HttpOutcome) (gemKey : Option String)
    (gemNet : GenaiOutcome) :
    (summarize_content provider content orKey orNet gemKey gemNet).1 ≠ "" := by
  unfold summarize_content
  by_cases hp : provider = "openrouter"
  · simp only [hp, if_pos rfl]
    cases ho : summarize_with_openrouter content orKey orNet with
    | none => exact summarize_with_gemini_ne_empty content gemKey gemNet
    | some s => exact summarize_with_openrouter_ne_empty content orKey orNet ho
  · by_cases hg : provider = "gemini"
    · simp only [hp, hg, reduceIte]
      exact summarize_with_gemini_ne_empty content gemKey gemNet
    · simp only [hp, hg, reduceIte]
      cases ho : summarize_with_openrouter content orKey orNet with
      | none => exact summarize_with_gemini_ne_empty content gemKey gemNet
      | some s => exact summarize_with_openrouter_ne_empty content orKey orNet ho

theorem isPrefixL_mem {pat l : List Char} (h : isPrefixL pat l = true) :
    ∀ c ∈ pat, c ∈ l := by
  induction pat generalizing l with
  | nil => intro c hc; simp at hc
  | cons p ps ih =>
    cases l with
    | nil => simp [isPrefixL] at h
    | cons a as =>
      simp only [isPrefixL, Bool.and_eq_true, decide_eq_true_eq] at h
      intro c hc
      rcases List.mem_cons.mp hc with hc | hc
      · exact List.mem_cons.mpr (Or.inl (hc.trans h.1))
      · exact List.mem_cons.mpr (Or.inr (ih h.2 c hc))

theorem occursInL_mem {pat l : List Char} (h : occursInL pat l = true) :
    ∀ c ∈ pat, c ∈ l := by
  induction l with
  | nil =>
    intro c hc
    simp only [occursInL] at h
    exact absurd hc (by cases pat with
      | nil => simp
      | cons p ps => simp [isPrefixL] at h)
  | cons a as ih =>
    simp only [occursInL, Bool.or_eq_true] at h
    rcases h with h | h
    · exact isPrefixL_mem h
    · intro c hc
      exact List.mem_cons.mpr (Or.inr (ih h c hc))

theorem isPrefixL_append_left {pat a : List Char} (b : List Char)
    (h : isPrefixL pat a = true) : isPrefixL pat (a ++ b) = true := by
  induction pat generalizing a with
  | nil => simp [isPrefixL]
  | cons p ps ih =>
    cases a with
    | nil => simp [isPrefixL] at h
    | cons x xs =>
      simp only [isPrefixL, Bool.and_eq_true] at h ⊢
      exact ⟨h.1, ih h.2⟩

theorem occursInL_append_left {pat a : List Char} (b : List Char)
    (h : occursInL pat a = true) : occursInL pat (a ++ b) = true := by
  induction a with
  | nil =>
    have hp : pat = [] := by
      cases pat with
      | nil => rfl
      | cons p ps => simp [occursInL, isPrefixL] at h
    subst hp
    cases b with
    | nil => simp [occursInL, isPrefixL]
    | cons x xs => simp [occursInL, isPrefixL]
  | cons x xs ih =>
    simp only [occursInL, Bool.or_eq_true, List.cons_append] at h ⊢
    rcases h with h | h
    · exact Or.inl (isPrefixL_append_left b h)
    · exact Or.inr (ih h)

theorem occursIn_append_left {a : String} (b pat : String)
    (h : occursIn a pat = true) : occursIn (a ++ b) pat = true := by
  unfold occursIn at h ⊢
  rw [String.data_append]
  exact occursInL_append_left b.data h

theorem escapeChar_no_lt (c : Char) : '<' ∉ escapeChar c := by
  unfold escapeChar
  split_ifs with h1 h2 h3 h4 h5
  · decide
  · decide
  · decide
  · decide
  · decide
  · simp only [List.mem_singleton]
    exact fun he => h2 he.symm

theorem escapeHtml_no_lt (s : String) : '<' ∉ (escapeHtml s).data := by
  intro h
  rcases List.mem_flatten.mp h with ⟨chunk, hchunk, hmem⟩
  rcases List.mem_map.mp hchunk with ⟨c, _, hc⟩
  exact escapeChar_no_lt c (hc ▸ hmem)

/-- C2 counterexample: a Markdown file whose matched title line contains
`<script>` puts that text into the generated document unescaped (as live
markup), refuting the claim that all free text from input files appears
only as escaped entities. -/
theorem C2_counterexample :
    occursIn "# <script>alert(1)</script>\nbody" "<script>" = true ∧
    occursIn (generate_llms_html [⟨"d", "t.md"⟩]
      (fun p => if p = "d/t.md" then some "# <script>alert(1)</script>\nbody" else none)
      (fun _ => "MOCK")) "<script>" = true := by
  constructor
  · decide
  · decide

/-- C2 (amended): text rendered through `html.escape` (the preformatted
code-block bodies) never contains `<script>` - escaped output contains no
`<` character at all; titles and inline summaries, however, are
interpolated without escaping (see the counterexample). -/
theorem C2_escaped_text_has_no_script (s : String) :
    occursIn (escapeHtml s) "<script>" = false := by
  by_contra h
  have ht : occursInL "<script>".data (escapeHtml s).data = true := by
    unfold occursIn at h
    exact Bool.of_not_eq_false h
  exact escapeHtml_no_lt s (occursInL_mem ht '<' (by decide))

theorem sortPaths_perm {l1 l2 : List String} (h : l1.Perm l2) :
    sortPaths l1 = sortPaths l2 :=
  List.eq_of_perm_of_sorted
    ((List.perm_insertionSort _ l1).trans (h.trans (List.perm_insertionSort _ l2).symm))
    (List.sorted_insertionSort _ l1) (List.sorted_insertionSort _ l2)

theorem markdownFiles_perm {e1 e2 : List WalkEntry} (h : e1.Perm e2) :
    markdownFiles e1 = markdownFiles e2 :=
  sortPaths_perm ((h.filter _).map _)

theorem otherTextFiles_perm {e1 e2 : List WalkEntry} (h : e1.Perm e2) :
    otherTextFiles e1 = otherTextFiles e2 :=
  sortPaths_perm ((h.filter _).map _)

/-- C7: the generated document is invariant under the order in which the
directory walk yields the files (both file lists are sorted by path before
processing), so with a fixed file system and a fixed summary provider the
output is fully determined by the set of input files: two runs on the same
unchanged tree produce byte-identical output. -/
theorem C7_output_deterministic (e1 e2 : List WalkEntry)
    (fs : String → Option String) (summ : String → String) (h : e1.Perm e2) :
    generate_llms_html e1 fs summ = generate_llms_html e2 fs summ := by
  unfold generate_llms_html mdParts otherParts
  rw [markdownFiles_perm h, otherTextFiles_perm h]

theorem C7_witness :
    ([(⟨"d", "b.md"⟩ : WalkEntry), ⟨"d", "a.md"⟩]).Perm [⟨"d", "a.md"⟩, ⟨"d", "b.md"⟩] ∧
    generate_llms_html [⟨"d", "b.md"⟩, ⟨"d", "a.md"⟩] (fun _ => some "x") (fun _ => "S")
      = generate_llms_html [⟨"d", "a.md"⟩, ⟨"d", "b.md"⟩] (fun _ => some "x") (fun _ => "S") :=
  ⟨by decide,
    C7_output_deterministic [⟨"d", "b.md"⟩, ⟨"d", "a.md"⟩] [⟨"d", "a.md"⟩, ⟨"d", "b.md"⟩]
      (fun _ => some "x") (fun _ => "S") (by decide)⟩

theorem filterMap_skip_none {α β : Type} (f : α → Option β) (q : α → Bool)
    (h : ∀ x, q x = false → f x = none) :
    ∀ l : List α, l.filterMap f = (l.filter q).filterMap f := by
  intro l
  induction l with
  | nil => rfl
  | cons a l ih =>
    cases hq : q a with
    | false => simp [List.filterMap_cons, h a hq, hq, ih]
    | true => simp [List.filterMap_cons, hq, ih]

theorem sortPaths_filter (l : List String) (q : String → Bool) :
    sortPaths (l.filter q) = (sortPaths l).filter q :=
  List.eq_of_perm_of_sorted
    ((List.perm_insertionSort _ (l.filter q)).trans
      ((List.perm_insertionSort _ l).symm.filter q))
    (List.sorted_insertionSort _ (l.filter q))
    (List.Pairwise.filter q (List.sorted_insertionSort _ l))

theorem markdownFiles_filter_readable (entries : List WalkEntry)
    (fs : String → Option String) :
    markdownFiles (entries.filter fun e => (fs (filepathOf e)).isSome)
      = (markdownFiles entries).filter fun fp => (fs fp).isSome := by
  unfold markdownFiles
  rw [List.filter_filter]
  rw [@List.filter_congr _ _ (fun e => ((fun fp => (fs fp).isSome) ∘ filepathOf) e
      && pyEndsWith e.filename ".md") entries (fun x _ => by rw [Bool.and_comm]; rfl)]
  rw [← List.filter_filter, ← List.filter_map, sortPaths_filter]

theorem otherTextFiles_filter_readable (entries : List WalkEntry)
    (fs : String → Option String) :
    otherTextFiles (entries.filter fun e => (fs (filepathOf e)).isSome)
      = (otherTextFiles entries).filter fun fp => (fs fp).isSome := by
  unfold otherTextFiles
  rw [List.filter_filter]
  rw [@List.filter_congr _ _ (fun e => ((fun fp => (fs fp).isSome) ∘ filepathOf) e
      && (!(pyEndsWith e.filename ".md")
        && otherExtensions.any fun ext => pyEndsWith e.filename ext))
    entries (fun x _ => by rw [Bool.and_comm]; rfl)]
  rw [← List.filter_filter, ← List.filter_map, sortPaths_filter]

theorem mdSectionParts_none (summ : String → String) (fs : String → Option String)
    {fp : String} (h : fs fp = none) : mdSectionParts summ fs fp = none := by
  unfold mdSectionParts
  rw [h]

theorem otherSectionParts_none (summ : String → String) (fs : String → Option String)
    {fp : String} (h : fs fp = none) : otherSectionParts summ fs fp = none := by
  unfold otherSectionParts
  rw [h]

/-- C9: unreadable files (those for which the reader returns `None`)
contribute nothing: the generated document equals the one generated from
the readable files alone, and the run still completes and produces the full
document shell (it contains "Project Documentation"). -/
theorem C9_unreadable_files_skipped (entries : List WalkEntry)
    (fs : String → Option String) (summ : String → String) :
    generate_llms_html entries fs summ
      = generate_llms_html (entries.filter fun e => (fs (filepathOf e)).isSome) fs summ ∧
    occursIn (generate_llms_html entries fs summ) "Project Documentation" = true := by
  constructor
  · unfold generate_llms_html mdParts otherParts
    rw [markdownFiles_filter_readable, otherTextFiles_filter_readable]
    rw [← filterMap_skip_none (mdSectionParts summ fs) (fun fp => (fs fp).isSome)
      (fun x hx => mdSectionParts_none summ fs (Option.not_isSome_iff_eq_none.mp
        (by simp [hx])))]
    rw [← filterMap_skip_none (otherSectionParts summ fs) (fun fp => (fs fp).isSome)
      (fun x hx => otherSectionParts_none summ fs (Option.not_isSome_iff_eq_none.mp
        (by simp [hx])))]
  · unfold generate_llms_html
    apply occursIn_append_left
    apply occursIn_append_left
    apply occursIn_append_left
    apply occursIn_append_left
    apply occursIn_append_left
    apply occursIn_append_left
    decide

theorem mdParts_fst (summ : String → String) (fs : String → Option String)
    (paths : List String) :
    (paths.filterMap (mdSectionParts summ fs)).map Prod.fst
      = (mdTitles fs paths).map fun t => tocEntryOf (sectionIdOf t) t := by
  induction paths with
  | nil => rfl
  | cons fp rest ih =>
    cases h : fs fp with
    | none => simp [List.filterMap_cons, mdSectionParts, mdTitles, h, ih]
    | some content =>
      simp [List.filterMap_cons, mdSectionParts, mdTitles, h]
      exact ih

theorem mdParts_heads (summ : String → String) (fs : String → Option String)
    (paths : List String) :
    (paths.filterMap (mdSectionParts summ fs)).map (fun pr => pr.2.headD "")
      = (mdTitles fs paths).map fun t => headingOf (sectionIdOf t) t := by
  induction paths with
  | nil => rfl
  | cons fp rest ih =>
    cases h : fs fp with
    | none =>
      simp only [List.filterMap_cons, mdSectionParts, mdTitles, h]
      exact ih
    | some content =>
      simp only [List.filterMap_cons, mdSectionParts, mdTitles, h, List.map_cons]
      rw [ih]
      rfl

theorem otherParts_fst (summ : String → String) (fs : String → Option String)
    (paths : List String) :
    (paths.filterMap (otherSectionParts summ fs)).map Prod.fst
      = (otherTitles fs paths).map fun t => tocEntryOf (sectionIdOf t) t := by
  induction paths with
  | nil => rfl
  | cons fp rest ih =>
    cases h : fs fp with
    | none => simp [List.filterMap_cons, otherSectionParts, otherTitles, h, ih]
    | some content =>
      simp [List.filterMap_cons, otherSectionParts, otherTitles, h]
      exact ih

theorem otherParts_heads (summ : String → String) (fs : String → Option String)
    (paths : List String) :
    (paths.filterMap (otherSectionParts summ fs)).map (fun pr => pr.2.headD "")
      = (otherTitles fs paths).map fun t => headingOf (sectionIdOf t) t := by
  induction paths with
  | nil => rfl
  | cons fp rest ih =>
    cases h : fs fp with
    | none =>
      simp only [List.filterMap_cons, otherSectionParts, otherTitles, h]
      exact ih
    | some content =>
      simp only [List.filterMap_cons, otherSectionParts, otherTitles, h, List.map_cons]
      rw [ih]
      rfl

theorem mdSectionParts_length (summ : String → String) (fs : String → Option String)
    {fp : String} {pr : String × List String}
    (h : mdSectionParts summ fs fp = some pr) : pr.2.length = 4 := by
  unfold mdSectionParts at h
  cases hf : fs fp with
  | none => rw [hf] at h; simp at h
  | some content =>
    rw [hf] at h
    simp at h
    rw [← h]
    rfl

theorem otherSectionParts_length (summ : String → String) (fs : String → Option String)
    {fp : String} {pr : String × List String}
    (h : otherSectionParts summ fs fp = some pr) : pr.2.length = 4 := by
  unfold otherSectionParts at h
  cases hf : fs fp with
  | none => rw [hf] at h; simp at h
  | some content =>
    rw [hf] at h
    simp at h
    rw [← h]
    rfl

/-- C8: there is one list of titles such that the per-file
table-of-contents entries and the per-file section headings are both its
images, entry `i` and heading `i` sharing the same anchor id
`sectionIdOf title` (the title lower-cased, spaces replaced by hyphens):
each processed file contributes exactly one table-of-contents entry and
exactly one heading (its section is exactly four strings, headed by the
`<h2>`), in matching order. -/
theorem C8_toc_matches_sections (entries : List WalkEntry)
    (fs : String → Option String) (summ : String → String) :
    ∃ ts : List String,
      (mdParts summ fs entries).map Prod.fst ++ (otherParts summ fs entries).map Prod.fst
        = ts.map (fun t => tocEntryOf (sectionIdOf t) t) ∧
      (mdParts summ fs entries).map (fun pr => pr.2.headD "")
          ++ (otherParts summ fs entries).map (fun pr => pr.2.headD "")
        = ts.map (fun t => headingOf (sectionIdOf t) t) ∧
      ∀ pr ∈ mdParts summ fs entries ++ otherParts summ fs entries,
        pr.2.length = 4 := by
  refine ⟨mdTitles fs (markdownFiles entries) ++ otherTitles fs (otherTextFiles entries),
    ?_, ?_, ?_⟩
  · rw [List.map_append, mdParts, otherParts, mdParts_fst, otherParts_fst]
  · rw [List.map_append, mdParts, otherParts, mdParts_heads, otherParts_heads]
  · intro pr hpr
    rcases List.mem_append.mp hpr with hpr | hpr
    · rcases List.mem_filterMap.mp hpr with ⟨fp, _, hfp⟩
      exact mdSectionParts_length summ fs hfp
    · rcases List.mem_filterMap.mp hpr with ⟨fp, _, hfp⟩
      exact otherSectionParts_length summ fs hfp

theorem isPrefixL_self (l : List Char) : isPrefixL l l = true := by
  induction l with
  | nil => rfl
  | cons c cs ih => simp [isPrefixL, ih]

theorem isPrefixL_append_self (l b : List Char) : isPrefixL l (l ++ b) = true := by
  induction l with
  | nil => rfl
  | cons c cs ih => simp [isPrefixL, ih]

theorem isPrefixL_split {pat x y : List Char} (h : isPrefixL pat (x ++ y) = true) :
    isPrefixL pat x = true ∨ ∃ pat2, pat = x ++ pat2 ∧ isPrefixL pat2 y = true := by
  induction x generalizing pat with
  | nil => exact Or.inr ⟨pat, rfl, h⟩
  | cons c xs ih =>
    cases pat with
    | nil => exact Or.inl rfl
    | cons p ps =>
      simp only [List.cons_append, isPrefixL, Bool.and_eq_true, decide_eq_true_eq] at h
      rcases ih h.2 with h1 | ⟨pat2, he, hp⟩
      · exact Or.inl (by simp [isPrefixL, h.1, h1])
      · exact Or.inr ⟨pat2, by rw [List.cons_append, ← he, h.1], hp⟩

theorem occursInL_nil {pat : List Char} (hpat : pat ≠ []) :
    occursInL pat [] = false := by
  cases pat with
  | nil => exact absurd rfl hpat
  | cons p ps => rfl

theorem occursInL_cons (pat : List Char) (c : Char) (cs : List Char) :
    occursInL pat (c :: cs) = (isPrefixL pat (c :: cs) || occursInL pat cs) := rfl

theorem occursInL_head {pat : List Char} {c : Char} {cs : List Char}
    (h : isPrefixL pat (c :: cs) = true) : occursInL pat (c :: cs) = true := by
  rw [occursInL_cons, h, Bool.true_or]

theorem occursInL_tail {pat : List Char} {c : Char} {cs : List Char}
    (h : occursInL pat cs = true) : occursInL pat (c :: cs) = true := by
  rw [occursInL_cons, h, Bool.or_true]

theorem occursInL_seam {pat : List Char} (hpat : pat ≠ []) (hnl : '\n' ∉ pat) :
    ∀ {a b : List Char}, occursInL pat (a ++ '\n' :: b) = true →
    occursInL pat a = true ∨ occursInL pat b = true := by
  intro a
  induction a with
  | nil =>
    intro b h
    have h' : (isPrefixL pat ('\n' :: b) || occursInL pat b) = true := h
    rw [Bool.or_eq_true] at h'
    rcases h' with h1 | h1
    · cases pat with
      | nil => exact absurd rfl hpat
      | cons p ps =>
        have hp : p = '\n' := by
          simp only [isPrefixL, Bool.and_eq_true, decide_eq_true_eq] at h1
          exact h1.1
        exact absurd (hp ▸ List.mem_cons_self p ps) hnl
    · exact Or.inr h1
  | cons x xs ih =>
    intro b h
    have h' : (isPrefixL pat (x :: (xs ++ '\n' :: b))
        || occursInL pat (xs ++ '\n' :: b)) = true := h
    rw [Bool.or_eq_true] at h'
    rcases h' with h1 | h1
    · have h1' : isPrefixL pat ((x :: xs) ++ '\n' :: b) = true := h1
      rcases isPrefixL_split h1' with h2 | ⟨pat2, he, hp⟩
      · exact Or.inl (occursInL_head h2)
      · cases pat2 with
        | nil =>
          rw [List.append_nil] at he
          subst he
          exact Or.inl (occursInL_head (isPrefixL_self _))
        | cons q qs =>
          have hq : q = '\n' := by
            simp only [isPrefixL, Bool.and_eq_true, decide_eq_true_eq] at hp
            exact hp.1
          have hmem : '\n' ∈ pat := by
            rw [he]
            exact List.mem_append.mpr (Or.inr (hq ▸ List.mem_cons_self q qs))
          exact absurd hmem hnl
    · rcases ih h1 with h2 | h2
      · exact Or.inl (occursInL_tail h2)
      · exact Or.inr h2

theorem occursInL_append_right {pat d : List Char} (t : List Char)
    (h : occursInL pat d = true) : occursInL pat (t ++ d) = true := by
  induction t with
  | nil => exact h
  | cons x xs ih => simp [occursInL, ih]

theorem occursInL_dropWhile {pat : List Char} (p : Char → Bool) :
    ∀ {l : List Char}, occursInL pat (l.dropWhile p) = true → occursInL pat l = true := by
  intro l
  induction l with
  | nil => simp [List.dropWhile]
  | cons c cs ih =>
    intro h
    rw [List.dropWhile_cons] at h
    by_cases hc : p c = true
    · simp only [hc, if_true] at h
      simp [occursInL, ih h]
    · simp only [hc, if_false] at h
      exact h

theorem exists_dropWhile_eq_append (p : Char → Bool) (l : List Char) :
    ∃ t, l = t ++ l.dropWhile p :=
  ⟨l.takeWhile p, (List.takeWhile_append_dropWhile p l).symm⟩

theorem pyStripL_prefix_of_dropWhile (l : List Char) :
    ∃ t, l.dropWhile isPySpace = pyStripL l ++ t := by
  rcases exists_dropWhile_eq_append isPySpace (l.dropWhile isPySpace).reverse with ⟨t, ht⟩
  refine ⟨t.reverse, ?_⟩
  unfold pyStripL
  calc l.dropWhile isPySpace
      = (l.dropWhile isPySpace).reverse.reverse := (List.reverse_reverse _).symm
    _ = (t ++ ((l.dropWhile isPySpace).reverse.dropWhile isPySpace)).reverse := by rw [← ht]
    _ = ((l.dropWhile isPySpace).reverse.dropWhile isPySpace).reverse ++ t.reverse := by
        rw [List.reverse_append]

theorem occursInL_pyStripL {pat l : List Char}
    (h : occursInL pat (pyStripL l) = true) : occursInL pat l = true := by
  rcases pyStripL_prefix_of_dropWhile l with ⟨t, ht⟩
  exact occursInL_dropWhile isPySpace (ht ▸ occursInL_append_left t h)

theorem splitAtFirst_here {pat l : List Char} (h : isPrefixL pat l = true) :
    splitAtFirst pat l = some ([], l.drop pat.length) := by
  cases l with
  | nil =>
    cases pat with
    | nil => rfl
    | cons p ps => simp [isPrefixL] at h
  | cons c cs =>
    unfold splitAtFirst
    rw [if_pos h]

theorem splitAtFirst_append (pat post : List Char) :
    ∀ (pre : List Char),
    (∀ i, i < pre.length → isPrefixL pat ((pre ++ (pat ++ post)).drop i) = false) →
    splitAtFirst pat (pre ++ (pat ++ post)) = some (pre, post) := by
  intro pre
  induction pre with
  | nil =>
    intro _
    rw [List.nil_append, splitAtFirst_here (isPrefixL_append_self pat post),
      List.drop_left]
  | cons c pre2 ih =>
    intro hno
    have h0 : isPrefixL pat (c :: (pre2 ++ (pat ++ post))) = false := by
      have := hno 0 (by simp)
      simpa using this
    show splitAtFirst pat (c :: (pre2 ++ (pat ++ post))) = some (c :: pre2, post)
    unfold splitAtFirst
    rw [if_neg (by simp [h0])]
    have hrec := ih (fun i hi => by
      have := hno (i + 1) (by simp; omega)
      simpa using this)
    rw [hrec]

theorem occursInL_of_isPrefixL_drop {pat l : List Char} {i : Nat}
    (h : isPrefixL pat (l.drop i) = true) : occursInL pat l = true := by
  induction l generalizing i with
  | nil =>
    rw [List.drop_nil] at h
    cases pat with
    | nil => rfl
    | cons p ps => simp [isPrefixL] at h
  | cons c cs ih =>
    cases i with
    | zero =>
      rw [List.drop_zero] at h
      exact occursInL_head h
    | succ j =>
      rw [List.drop_succ_cons] at h
      exact occursInL_tail (ih h)

theorem no_early_occurrence {A pat post : List Char} (hpat : pat ≠ [])
    (hnl : '\n' ∉ pat) (hlast : ('\n' :: A).getLast? = some '\n')
    (hA : occursInL pat A = false) :
    ∀ i, i < ('\n' :: A).length →
      isPrefixL pat ((('\n' :: A) ++ (pat ++ post)).drop i) = false := by
  intro i hi
  by_contra hcon
  have hc : isPrefixL pat ((('\n' :: A) ++ (pat ++ post)).drop i) = true :=
    Bool.of_not_eq_false hcon
  rw [List.drop_append_of_le_length (Nat.le_of_lt hi)] at hc
  rcases isPrefixL_split hc with h1 | ⟨pat2, he, _⟩
  · have hocc : occursInL pat ('\n' :: A) = true := occursInL_of_isPrefixL_drop h1
    have hocc2 : occursInL pat ([] ++ '\n' :: A) = true := by simpa using hocc
    have : occursInL pat [] = true ∨ occursInL pat A = true :=
      occursInL_seam hpat hnl hocc2
    rcases this with h2 | h2
    · rw [occursInL_nil hpat] at h2; exact absurd h2 (by simp)
    · rw [hA] at h2; exact absurd h2 (by simp)
  · have hdne : ('\n' :: A).drop i ≠ [] := by
      intro hd
      have := List.drop_eq_nil_iff.mp hd
      omega
    have hlast2 : (('\n' :: A).drop i).getLast? = some '\n' := by
      have hsplit := List.take_append_drop i ('\n' :: A)
      calc (('\n' :: A).drop i).getLast?
          = ((('\n' :: A).take i) ++ (('\n' :: A).drop i)).getLast? :=
            (List.getLast?_append_of_ne_nil _ hdne).symm
        _ = ('\n' :: A).getLast? := by rw [hsplit]
        _ = some '\n' := hlast
    have hmem : '\n' ∈ ('\n' :: A).drop i := List.mem_of_mem_getLast? hlast2
    exact hnl (he ▸ List.mem_append.mpr (Or.inl hmem))

theorem takeNonNl_append {t : List Char} (r : List Char) (h : '\n' ∉ t) :
    takeNonNl (t ++ '\n' :: r) = t := by
  induction t with
  | nil =>
    show takeNonNl ('\n' :: r) = []
    unfold takeNonNl
    rw [if_pos rfl]
  | cons c cs ih =>
    have hc : c ≠ '\n' := fun he => h (he ▸ List.mem_cons_self c cs)
    show takeNonNl (c :: (cs ++ '\n' :: r)) = c :: cs
    unfold takeNonNl
    rw [if_neg hc, ih (fun hm => h (List.mem_cons_of_mem c hm))]

theorem searchAux_immediate {marker : Char} {l : List Char}
    {res : List Char × List Char} {fuel : Nat} (hf : 1 ≤ fuel)
    (h : matchAt marker l = some res) : searchAux marker fuel l = some res := by
  cases fuel with
  | zero => omega
  | succ f =>
    unfold searchAux
    rw [h]

theorem matchAt_line (marker c0 : Char) (ts r : List Char)
    (h0 : isPySpace c0 = false) (hnl : '\n' ∉ c0 :: ts) :
    matchAt marker (marker :: ' ' :: ((c0 :: ts) ++ '\n' :: r))
      = some (marker :: ' ' :: (c0 :: ts), c0 :: ts) := by
  have hc0 : c0 ≠ '\n' := fun he => hnl (he ▸ List.mem_cons_self c0 ts)
  have htw : (' ' :: ((c0 :: ts) ++ '\n' :: r)).takeWhile isPySpace = [' '] := by
    have h1 : (c0 :: ts) ++ '\n' :: r = c0 :: (ts ++ '\n' :: r) := rfl
    rw [List.takeWhile_cons, h1, List.takeWhile_cons]
    rw [show isPySpace ' ' = true from rfl, h0]
    rfl
  have hwb : wsBacktrack (' ' :: ((c0 :: ts) ++ '\n' :: r)) 1 = some 1 := by
    show wsBacktrack (' ' :: ((c0 :: ts) ++ '\n' :: r)) (0 + 1) = some 1
    unfold wsBacktrack
    have hg : (' ' :: ((c0 :: ts) ++ '\n' :: r)).get? (0 + 1) = some c0 := rfl
    rw [hg]
    show (if c0 = '\n' then wsBacktrack (' ' :: ((c0 :: ts) ++ '\n' :: r)) 0
      else some (0 + 1)) = some 1
    rw [if_neg hc0]
  simp only [matchAt, htw, if_true]
  rw [show ([' '] : List Char).length = 1 from rfl, hwb]
  show some (marker :: ((' ' :: ((c0 :: ts) ++ '\n' :: r)).take 1
      ++ takeNonNl ((' ' :: ((c0 :: ts) ++ '\n' :: r)).drop 1)),
      takeNonNl ((' ' :: ((c0 :: ts) ++ '\n' :: r)).drop 1))
    = some (marker :: ' ' :: (c0 :: ts), c0 :: ts)
  rw [show (' ' :: ((c0 :: ts) ++ '\n' :: r)).take 1 = [' '] from rfl]
  rw [show (' ' :: ((c0 :: ts) ++ '\n' :: r)).drop 1 = (c0 :: ts) ++ '\n' :: r from rfl]
  rw [takeNonNl_append r hnl]
  rfl

theorem nextLineStart_split {s : List Char} (hs : '\n' ∉ s) (t suf : List Char) :
    nextLineStart ((s ++ '\n' :: t) ++ suf) = some (t ++ suf) := by
  induction s with
  | nil =>
    show nextLineStart ('\n' :: (t ++ suf)) = some (t ++ suf)
    unfold nextLineStart
    rw [if_pos rfl]
  | cons c cs ih =>
    have hc : c ≠ '\n' := fun he => hs (he ▸ List.mem_cons_self c cs)
    show nextLineStart (c :: ((cs ++ '\n' :: t) ++ suf)) = some (t ++ suf)
    unfold nextLineStart
    rw [if_neg hc]
    exact ih (fun hm => hs (List.mem_cons_of_mem c hm))

theorem split_at_first_nl {l : List Char} (h : '\n' ∈ l) :
    ∃ s t, l = s ++ '\n' :: t ∧ '\n' ∉ s := by
  induction l with
  | nil => simp at h
  | cons c cs ih =>
    by_cases hc : c = '\n'
    · subst hc
      exact ⟨[], cs, rfl, by simp⟩
    · have h2 : '\n' ∈ cs := by
        rcases List.mem_cons.mp h with h1 | h1
        · exact absurd h1.symm hc
        · exact h1
      rcases ih h2 with ⟨s, t, he, hn⟩
      refine ⟨c :: s, t, by rw [he, List.cons_append], ?_⟩
      intro hm
      rcases List.mem_cons.mp hm with h1 | h1
      · exact hc h1.symm
      · exact hn h1

theorem noMarker_append (marker : Char) (b : Bool) (x y : List Char) :
    noMarkerAtLineStarts marker b (x ++ y)
      = (noMarkerAtLineStarts marker b x
          && noMarkerAtLineStarts marker (flagAfter b x) y) := by
  induction x generalizing b with
  | nil => simp [noMarkerAtLineStarts, flagAfter]
  | cons c cs ih =>
    show noMarkerAtLineStarts marker b (c :: (cs ++ y)) = _
    simp only [noMarkerAtLineStarts, flagAfter]
    rw [ih, Bool.and_assoc]

theorem noMarker_suffix (marker : Char) :
    ∀ {s : List Char} {t : List Char} {b : Bool},
    noMarkerAtLineStarts marker b (s ++ '\n' :: t) = true →
    noMarkerAtLineStarts marker true t = true := by
  intro s
  induction s with
  | nil =>
    intro t b h
    rw [List.nil_append] at h
    unfold noMarkerAtLineStarts at h
    rw [Bool.and_eq_true] at h
    have h2 := h.2
    simpa using h2
  | cons c cs ih =>
    intro t b h
    have h' : noMarkerAtLineStarts marker b (c :: (cs ++ '\n' :: t)) = true := h
    unfold noMarkerAtLineStarts at h'
    rw [Bool.and_eq_true] at h'
    exact ih h'.2

theorem endsNl_ne_nil {l : List Char} (h : endsNl l = true) : l ≠ [] := by
  intro he
  subst he
  simp [endsNl] at h

theorem endsNl_append {l : List Char} (x : List Char) (h : l ≠ []) :
    endsNl (x ++ l) = endsNl l := by
  unfold endsNl
  rw [List.getLast?_append_of_ne_nil x h]

theorem endsNl_suffix {s t : List Char} (h : endsNl (s ++ '\n' :: t) = true) :
    t = [] ∨ endsNl t = true := by
  cases t with
  | nil => exact Or.inl rfl
  | cons c cs =>
    right
    rw [endsNl_append s (by simp)] at h
    unfold endsNl at h ⊢
    rw [List.getLast?_cons_cons] at h
    exact h

theorem searchAux_skip (marker : Char) :
    ∀ (fuel : Nat) (pre suf : List Char) (res : List Char × List Char),
    noMarkerAtLineStarts marker true pre = true →
    (pre = [] ∨ endsNl pre = true) →
    pre.length + 1 ≤ fuel →
    matchAt marker suf = some res →
    searchAux marker fuel (pre ++ suf) = some res := by
  intro fuel
  induction fuel with
  | zero =>
    intro pre suf res _ _ hlen _
    omega
  | succ f ih =>
    intro pre suf res hno hends hlen hm
    cases pre with
    | nil =>
      rw [List.nil_append]
      exact searchAux_immediate (by omega) hm
    | cons c cs =>
      have hcm : c ≠ marker := by
        have h1 : noMarkerAtLineStarts marker true (c :: cs) = true := hno
        simp only [noMarkerAtLineStarts, if_true, Bool.and_eq_true] at h1
        simpa using h1.1
      have hends' : endsNl (c :: cs) = true := by
        rcases hends with h | h
        · exact absurd h (by simp)
        · exact h
      have hlast : (c :: cs).getLast? = some '\n' := by
        have := hends'
        unfold endsNl at this
        simpa using this
      have hin : '\n' ∈ c :: cs := List.mem_of_mem_getLast? hlast
      rcases split_at_first_nl hin with ⟨s, t, he, hnin⟩
      show searchAux marker (f + 1) ((c :: cs) ++ suf) = some res
      unfold searchAux
      have hmf : matchAt marker ((c :: cs) ++ suf) = none := by
        show matchAt marker (c :: (cs ++ suf)) = none
        simp only [matchAt]
        rw [if_neg hcm]
      rw [hmf]
      have hnls : nextLineStart ((c :: cs) ++ suf) = some (t ++ suf) := by
        rw [he]
        exact nextLineStart_split hnin t suf
      rw [hnls]
      apply ih t suf res
      · exact noMarker_suffix marker (he ▸ hno)
      · exact endsNl_suffix (he ▸ hends')
      · have hlc : (c :: cs).length = (s ++ '\n' :: t).length := by rw [he]
        simp only [List.length_cons, List.length_append] at hlc hlen
        omega
      · exact hm

theorem c3Content_data (A B : String) :
    (c3Content A B).data
      = "# Test Document".data
          ++ ('\n' :: (A.data ++ ("> This is a summary.".data ++ '\n' :: B.data))) := by
  unfold c3Content
  simp [String.data_append, List.append_assoc]

theorem c3_matchAt_hash (A B : String) :
    matchAt '#' (c3Content A B).data
      = some ("# Test Document".data, "Test Document".data) := by
  rw [c3Content_data]
  rw [(by decide : ("# Test Document" : String).data
    = '#' :: ' ' :: ('T' :: "est Document".data))]
  show matchAt '#' ('#' :: ' ' :: (('T' :: "est Document".data)
    ++ '\n' :: (A.data ++ ("> This is a summary.".data ++ '\n' :: B.data)))) = _
  rw [matchAt_line '#' 'T' "est Document".data _ (by decide) (by decide)]

theorem c3_reSearch_hash (A B : String) :
    reSearch '#' (c3Content A B) = some ("# Test Document", "Test Document") := by
  unfold reSearch
  rw [searchAux_immediate (by omega) (c3_matchAt_hash A B)]

theorem c3_matchAt_quote (B : String) :
    matchAt '>' ('>' :: ' ' :: (('T' :: "his is a summary.".data) ++ '\n' :: B.data))
      = some ("> This is a summary.".data, "This is a summary.".data) := by
  rw [matchAt_line '>' 'T' "his is a summary.".data B.data (by decide) (by decide)]

theorem c3_reSearch_quote (A B : String)
    (hA : A.data = [] ∨ endsNl A.data = true)
    (hq : noMarkerAtLineStarts '>' true A.data = true) :
    reSearch '>' (c3Content A B)
      = some ("> This is a summary.", "This is a summary.") := by
  have hsplit : (c3Content A B).data
      = ("# Test Document\n".data ++ A.data)
          ++ ('>' :: ' ' :: (('T' :: "his is a summary.".data) ++ '\n' :: B.data)) := by
    rw [c3Content_data]
    rw [(by decide : ("# Test Document\n" : String).data
      = "# Test Document".data ++ ['\n'])]
    rw [(by decide : ("> This is a summary." : String).data
      = '>' :: ' ' :: ('T' :: "his is a summary.".data))]
    simp [List.append_assoc]
  have hno : noMarkerAtLineStarts '>' true ("# Test Document\n".data ++ A.data) = true := by
    rw [noMarker_append]
    rw [(by decide : noMarkerAtLineStarts '>' true ("# Test Document\n" : String).data
      = true)]
    rw [(by decide : flagAfter true ("# Test Document\n" : String).data = true)]
    rw [hq]
    rfl
  have hends : ("# Test Document\n".data ++ A.data) = []
      ∨ endsNl ("# Test Document\n".data ++ A.data) = true := by
    right
    rcases hA with h | h
    · rw [h, List.append_nil]
      decide
    · rw [endsNl_append _ (endsNl_ne_nil h)]
      exact h
  unfold reSearch
  rw [hsplit]
  rw [searchAux_skip '>' _ _ _ _ hno hends
    (by simp only [List.length_append]; omega) (c3_matchAt_quote B)]

theorem c3_body_data (A B : String)
    (hA : A.data = [] ∨ endsNl A.data = true)
    (hsA : occursInL "> This is a summary.".data A.data = false) :
    (pyReplaceFirst (pyReplaceFirst (c3Content A B) "# Test Document" "")
        "> This is a summary." "").data
      = ('\n' :: A.data) ++ '\n' :: B.data := by
  have hstep1 : (pyReplaceFirst (c3Content A B) "# Test Document" "").data
      = ('\n' :: A.data) ++ ("> This is a summary.".data ++ '\n' :: B.data) := by
    show replaceFirstL ("# Test Document" : String).data ("" : String).data
      (c3Content A B).data = _
    rw [c3Content_data]
    unfold replaceFirstL
    rw [splitAtFirst_here (isPrefixL_append_self _ _)]
    rw [List.drop_left]
    rfl
  show replaceFirstL ("> This is a summary." : String).data ("" : String).data
    (pyReplaceFirst (c3Content A B) "# Test Document" "").data = _
  rw [hstep1]
  have hlast : ('\n' :: A.data).getLast? = some '\n' := by
    rcases hA with h | h
    · rw [h]
      decide
    · show (['\n'] ++ A.data).getLast? = some '\n'
      rw [List.getLast?_append_of_ne_nil _ (endsNl_ne_nil h)]
      unfold endsNl at h
      simpa using h
  have hno : ∀ i, i < ('\n' :: A.data).length →
      isPrefixL ("> This is a summary." : String).data
        ((('\n' :: A.data)
          ++ (("> This is a summary." : String).data ++ '\n' :: B.data)).drop i)
        = false :=
    no_early_occurrence (by decide) (by decide) hlast hsA
  unfold replaceFirstL
  rw [splitAtFirst_append _ _ _ hno]
  simp

/-- C3 counterexample: in a Markdown file whose first `#`-heading line is
`# Test Document` and whose first quoted line is `> This is a summary.`,
the text of the matched title line is not necessarily removed from the
body: `str.replace(.., "", 1)` removes the first occurrence of the matched
text, and here an earlier occurrence (not at a line start) is removed
instead, so the rendered body still contains the matched line. -/
theorem C3_counterexample :
    firstHashHeadingLine "x # Test Document\n# Test Document\n> This is a summary.\n"
      = some "# Test Document" ∧
    firstQuoteLine "x # Test Document\n# Test Document\n> This is a summary.\n"
      = some "> This is a summary." ∧
    mdTitleOf "x # Test Document\n# Test Document\n> This is a summary.\n" "d/t.md"
      = "Test Document" ∧
    occursIn (mdBodyText "x # Test Document\n# Test Document\n> This is a summary.\n")
      "# Test Document" = true := by
  refine ⟨by decide, by decide, by decide, by decide⟩

/-- C3 (amended): for a Markdown content of the shape
`"# Test Document\n" ++ A ++ "> This is a summary.\n" ++ B` where no line
of `A` starts with `>`, `A` is empty or newline-terminated, and neither
matched line's text occurs in `A` or `B`, the extracted title is exactly
"Test Document", the summary paragraph is exactly
`<p>Summary: This is a summary.</p>`, and the body text rendered into the
preformatted block contains neither matched line (both removals hit the
matched occurrences). -/
theorem C3_inline_extraction (A B : String) (summ : String → String) (fp : String)
    (hA : A.data = [] ∨ endsNl A.data = true)
    (hq : noMarkerAtLineStarts '>' true A.data = true)
    (hsA : occursInL "> This is a summary.".data A.data = false)
    (htA : occursInL "# Test Document".data A.data = false)
    (htB : occursInL "# Test Document".data B.data = false)
    (hsB : occursInL "> This is a summary.".data B.data = false) :
    mdTitleOf (c3Content A B) fp = "Test Document" ∧
    mdSummaryPara summ (c3Content A B) = "<p>Summary: This is a summary.</p>" ∧
    occursIn (mdBodyText (c3Content A B)) "# Test Document" = false ∧
    occursIn (mdBodyText (c3Content A B)) "> This is a summary." = false := by
  have h1 := c3_reSearch_hash A B
  have h2 := c3_reSearch_quote A B hA hq
  have hbody : mdBodyText (c3Content A B)
      = pyStrip ⟨('\n' :: A.data) ++ '\n' :: B.data⟩ := by
    have hb1 : mdBodyText (c3Content A B)
        = pyStrip (pyReplaceFirst (pyReplaceFirst (c3Content A B) "# Test Document" "")
            "> This is a summary." "") := by
      simp only [mdBodyText, h1, h2]
    rw [hb1]
    congr 1
    exact String.ext (c3_body_data A B hA hsA)
  refine ⟨?_, ?_, ?_, ?_⟩
  · simp only [mdTitleOf, h1]
    decide
  · simp only [mdSummaryPara, h2]
    decide
  · rw [hbody]
    show occursInL ("# Test Document" : String).data
      (pyStripL (('\n' :: A.data) ++ '\n' :: B.data)) = false
    by_contra hcon
    have hc : occursInL ("# Test Document" : String).data
        (pyStripL (('\n' :: A.data) ++ '\n' :: B.data)) = true :=
      Bool.of_not_eq_false hcon
    have hc2 := occursInL_pyStripL hc
    rcases occursInL_seam (by decide) (by decide) hc2 with h3 | h3
    · have h3a : occursInL ("# Test Document" : String).data
          ([] ++ '\n' :: A.data) = true := h3
      rcases occursInL_seam (by decide) (by decide) h3a with h4 | h4
      · rw [occursInL_nil (by decide)] at h4
        exact absurd h4 (by simp)
      · rw [htA] at h4
        exact absurd h4 (by simp)
    · rw [htB] at h3
      exact absurd h3 (by simp)
  · rw [hbody]
    show occursInL ("> This is a summary." : String).data
      (pyStripL (('\n' :: A.data) ++ '\n' :: B.data)) = false
    by_contra hcon
    have hc : occursInL ("> This is a summary." : String).data
        (pyStripL (('\n' :: A.data) ++ '\n' :: B.data)) = true :=
      Bool.of_not_eq_false hcon
    have hc2 := occursInL_pyStripL hc
    rcases occursInL_seam (by decide) (by decide) hc2 with h3 | h3
    · have h3a : occursInL ("> This is a summary." : String).data
          ([] ++ '\n' :: A.data) = true := h3
      rcases occursInL_seam (by decide) (by decide) h3a with h4 | h4
      · rw [occursInL_nil (by decide)] at h4
        exact absurd h4 (by simp)
      · rw [hsA] at h4
        exact absurd h4 (by simp)
    · rw [hsB] at h3
      exact absurd h3 (by simp)

theorem C3_witness :
    c3Content "\nThis is a test document.\n\n" "\nSome content here."
      = "# Test Document\n\nThis is a test document.\n\n> This is a summary.\n\nSome content here." ∧
    mdTitleOf (c3Content "\nThis is a test document.\n\n" "\nSome content here.") "d/t.md"
      = "Test Document" ∧
    mdSummaryPara (fun _ => "MOCK")
      (c3Content "\nThis is a test document.\n\n" "\nSome content here.")
      = "<p>Summary: This is a summary.</p>" ∧
    occursIn (mdBodyText (c3Content "\nThis is a test document.\n\n" "\nSome content here."))
      "# Test Document" = false ∧
    occursIn (mdBodyText (c3Content "\nThis is a test document.\n\n" "\nSome content here."))
      "> This is a summary." = false := by
  have h := C3_inline_extraction "\nThis is a test document.\n\n" "\nSome content here."
    (fun _ => "MOCK") "d/t.md" (by decide) (by decide) (by decide) (by decide)
    (by decide) (by decide)
  exact ⟨by decide, h.1, h.2.1, h.2.2.1, h.2.2.2⟩

end Llms

